import Mathlib

/-!
Shallow embedding of the MCP-server configuration core of dspy-forge:
  - src/ui/src/contexts/LMConfigContext.tsx   (global scope state + persistence)
  - src/ui/src/components/LMConfigModal.tsx   (global scope editing draft)
  - src/ui/src/components/nodes/ModuleNode.tsx (per-node scope draft + save)

React `useState` cells become fields of explicit state records; each event
handler becomes a pure state-transition function.  The async
`fetchToolsForServer` is split into its synchronous phases: the start of the
call (sets the loading flag and issues the network request, recorded in an
`issuedRequests` log), the success continuation, and the failure/finally
continuation.  `localStorage` is modelled as a `PersistedValue` slot carried
in the context state; `JSON.parse` failure and a missing key are the
`malformed` and `absent` constructors.
-/

namespace DspyForge

/-- LMConfigContext.tsx: `interface LMConfig`. -/
structure LMConfig where
  provider : String
  modelName : String
deriving DecidableEq

/-- LMConfigContext.tsx: `interface MCPServer`. -/
structure MCPServer where
  url : String
  selectedTools : List String
deriving DecidableEq

/-- LMConfigContext.tsx: `interface GlobalConfig`. -/
structure GlobalConfig where
  lmConfig : Option LMConfig
  mcpServers : List MCPServer
deriving DecidableEq

/-- ToolDescriptor: the `{name, description}` records returned by
`/api/v1/mcp/tools` and stored in `availableTools`. -/
structure ToolDescriptor where
  name : String
  description : String
deriving DecidableEq

/-- JS `String.prototype.trim()`: strip whitespace characters from both ends.
(Defined over the character list so that it evaluates by kernel reduction;
Lean's own `String.trim` is defined through `Substring` auxiliaries that do
not reduce.) -/
def jsTrim (s : String) : String :=
  ⟨((s.data.dropWhile Char.isWhitespace).reverse.dropWhile Char.isWhitespace).reverse⟩

/-- JS object update `{...m, [k]: v}`: overwrite the value at an existing key
in place, otherwise append the new key. -/
def objSet {α : Type} (k : String) (v : α) : List (String × α) → List (String × α)
  | [] => [(k, v)]
  | (k', v') :: rest => if k' = k then (k, v) :: rest else (k', v') :: objSet k v rest

/-- JS object key deletion `const { [k]: _, ...rest } = m`. -/
def objDelete {α : Type} (k : String) : List (String × α) → List (String × α)
  | [] => []
  | (k', v') :: rest => if k' = k then objDelete k rest else (k', v') :: objDelete k rest

/-- JS object read `m[k]`, `undefined` becoming `none`. -/
def objGet {α : Type} (k : String) : List (String × α) → Option α
  | [] => none
  | (k', v') :: rest => if k' = k then some v' else objGet k rest

/-- LMConfigContext.tsx: the value stored under `dspy-forge-global-config` in
`localStorage`.  `absent` is `localStorage.getItem` returning null (or the
empty string, which the `if (stored)` truthiness test also treats as absent);
`malformed` is a blob on which `JSON.parse` throws; `parsed` is a parsed JSON
object whose two fields may each be missing/null (`none`). -/
inductive PersistedValue where
  | absent
  | malformed
  | parsed (lmConfig : Option LMConfig) (mcpServers : Option (List MCPServer))
deriving DecidableEq

/-- The initial in-memory global config (`useState(null)` / `useState([])`). -/
def defaultGlobalConfig : GlobalConfig := { lmConfig := none, mcpServers := [] }

/-- LMConfigContext.tsx lines 36-48: the mount effect that reads the persisted
blob.  The `catch` branch logs and leaves the initial state, and both missing
fields default (`config.lmConfig || null`, `config.mcpServers || []`). -/
def loadGlobalConfig : PersistedValue → GlobalConfig
  | .absent => defaultGlobalConfig
  | .malformed => defaultGlobalConfig
  | .parsed lm srv => { lmConfig := lm, mcpServers := srv.getD [] }

/-- LMConfigContext.tsx `saveGlobalConfig`: serialise `{lmConfig, mcpServers}`
and write it to storage.  `JSON.stringify` of the record always yields a
parseable blob with both fields present. -/
def saveGlobalConfig (lmConfig : Option LMConfig) (servers : List MCPServer) :
    PersistedValue :=
  .parsed lmConfig (some servers)

/-- The LMConfigProvider state: the two `useState` cells plus the
`localStorage` slot it writes through. -/
structure ContextState where
  globalLMConfig : Option LMConfig
  mcpServers : List MCPServer
  persisted : PersistedValue
deriving DecidableEq

/-- LMConfigContext.tsx `setGlobalLMConfig`: update the in-memory LM config and
persist it together with the current in-memory server list. -/
def setGlobalLMConfig (config : Option LMConfig) (s : ContextState) : ContextState :=
  { s with globalLMConfig := config,
           persisted := saveGlobalConfig config s.mcpServers }

/-- LMConfigContext.tsx `setMCPServers`: update the in-memory server list and
persist it together with the current in-memory LM config. -/
def setMCPServers (servers : List MCPServer) (s : ContextState) : ContextState :=
  { s with mcpServers := servers,
           persisted := saveGlobalConfig s.globalLMConfig servers }

namespace ModuleNode

/-- ModuleNode.tsx: the component's `useState` cells relevant to MCP
configuration.  `issuedRequests` records each `fetch(...)` network call made by
`fetchToolsForServer`, in order. -/
structure State where
  mcpServers : List String
  useGlobalMcpServers : Bool
  selectedTools : List (String × List String)
  availableTools : List (String × List ToolDescriptor)
  loadingTools : List (String × Bool)
  newMcpServer : String
  issuedRequests : List String
deriving DecidableEq

/-- The freshly mounted component with no node data (`nodeData.mcpServers ||
[]` and friends). -/
def emptyState : State :=
  { mcpServers := [], useGlobalMcpServers := false, selectedTools := [],
    availableTools := [], loadingTools := [], newMcpServer := "",
    issuedRequests := [] }

/-- ModuleNode.tsx `fetchToolsForServer`, synchronous prefix: set
`loadingTools[url] = true` and issue the HTTP request.  There is no guard on an
already-loading url. -/
def fetchToolsForServerStart (serverUrl : String) (s : State) : State :=
  { s with loadingTools := objSet serverUrl true s.loadingTools,
           issuedRequests := s.issuedRequests ++ [serverUrl] }

/-- ModuleNode.tsx `fetchToolsForServer`, success continuation (`response.ok`):
store the catalog, auto-select all tool names, clear the loading flag. -/
def fetchToolsForServerSuccess (serverUrl : String) (tools : List ToolDescriptor)
    (s : State) : State :=
  { s with availableTools := objSet serverUrl tools s.availableTools,
           selectedTools := objSet serverUrl (tools.map (·.name)) s.selectedTools,
           loadingTools := objSet serverUrl false s.loadingTools }

/-- ModuleNode.tsx `fetchToolsForServer`, error / non-ok continuation: only the
`finally` block runs, clearing the loading flag. -/
def fetchToolsForServerFailure (serverUrl : String) (s : State) : State :=
  { s with loadingTools := objSet serverUrl false s.loadingTools }

/-- ModuleNode.tsx `addMcpServer`: if the trimmed input is non-empty and not
already present, append it, clear the input, and start a catalog fetch;
otherwise do nothing. -/
def addMcpServer (s : State) : State :=
  if jsTrim s.newMcpServer ≠ "" ∧ jsTrim s.newMcpServer ∉ s.mcpServers then
    fetchToolsForServerStart (jsTrim s.newMcpServer)
      { s with mcpServers := s.mcpServers ++ [jsTrim s.newMcpServer], newMcpServer := "" }
  else s

/-- Typing `url` into the input box and clicking Add. -/
def addMcpServerWith (url : String) (s : State) : State :=
  addMcpServer { s with newMcpServer := url }

/-- ModuleNode.tsx `removeMcpServer`: drop the url from the server list and
delete its `availableTools` and `selectedTools` entries. -/
def removeMcpServer (serverUrl : String) (s : State) : State :=
  { s with mcpServers := s.mcpServers.filter (· ≠ serverUrl),
           availableTools := objDelete serverUrl s.availableTools,
           selectedTools := objDelete serverUrl s.selectedTools }

/-- ModuleNode.tsx `toggleToolSelection`: flip membership of `toolName` in
`selectedTools[serverUrl]`, a missing entry read as `[]`.  No catalog check. -/
def toggleToolSelection (serverUrl toolName : String) (s : State) : State :=
  let serverTools := (objGet serverUrl s.selectedTools).getD []
  let next := if toolName ∈ serverTools then serverTools.filter (· ≠ toolName)
              else serverTools ++ [toolName]
  { s with selectedTools := objSet serverUrl next s.selectedTools }

/-- ModuleNode.tsx `handleSave`: the node data written into the React Flow node
(the object spread overwrites every one of these fields, so the saved node
carries exactly these values).  The snapshot is a value copy of the global
server list when the toggle is on, and empty when it is off. -/
structure NodeData where
  label : String
  mcpServers : List String
  useGlobalMcpServers : Bool
  selectedTools : List (String × List String)
  globalMcpServersSnapshot : List MCPServer
deriving DecidableEq

/-- ModuleNode.tsx `handleSave` lines 44-75, restricted to the modelled
fields. -/
def handleSave (label : String) (s : State) (globalMCPServers : List MCPServer) :
    NodeData :=
  { label := label,
    mcpServers := s.mcpServers,
    useGlobalMcpServers := s.useGlobalMcpServers,
    selectedTools := s.selectedTools,
    globalMcpServersSnapshot :=
      if s.useGlobalMcpServers then
        globalMCPServers.map fun srv =>
          { url := srv.url, selectedTools := srv.selectedTools }
      else [] }

end ModuleNode

namespace LMConfigModal

/-- LMConfigModal.tsx: the modal's `useState` cells relevant to the MCP tab.
`issuedRequests` records each `fetch(...)` call made by
`fetchToolsForServer`. -/
structure State where
  localMCPServers : List MCPServer
  availableTools : List (String × List ToolDescriptor)
  loadingTools : List (String × Bool)
  newServerUrl : String
  issuedRequests : List String
deriving DecidableEq

/-- The freshly opened modal over an empty global scope. -/
def emptyState : State :=
  { localMCPServers := [], availableTools := [], loadingTools := [],
    newServerUrl := "", issuedRequests := [] }

/-- LMConfigModal.tsx `fetchToolsForServer`, synchronous prefix: set the
loading flag and issue the HTTP request.  No guard on an already-loading
url. -/
def fetchToolsForServerStart (serverUrl : String) (s : State) : State :=
  { s with loadingTools := objSet serverUrl true s.loadingTools,
           issuedRequests := s.issuedRequests ++ [serverUrl] }

/-- LMConfigModal.tsx `fetchToolsForServer`, success continuation: store the
catalog and clear the loading flag.  Selections are not touched. -/
def fetchToolsForServerSuccess (serverUrl : String) (tools : List ToolDescriptor)
    (s : State) : State :=
  { s with availableTools := objSet serverUrl tools s.availableTools,
           loadingTools := objSet serverUrl false s.loadingTools }

/-- LMConfigModal.tsx `fetchToolsForServer`, error / non-ok continuation. -/
def fetchToolsForServerFailure (serverUrl : String) (s : State) : State :=
  { s with loadingTools := objSet serverUrl false s.loadingTools }

/-- LMConfigModal.tsx `addMCPServer`: if the trimmed input is non-empty and no
existing server has that url, append a server with an empty selection, clear
the input, and start a catalog fetch; otherwise do nothing. -/
def addMCPServer (s : State) : State :=
  if jsTrim s.newServerUrl ≠ "" ∧ ∀ srv ∈ s.localMCPServers, srv.url ≠ jsTrim s.newServerUrl then
    fetchToolsForServerStart (jsTrim s.newServerUrl)
      { s with localMCPServers :=
                 s.localMCPServers ++ [{ url := jsTrim s.newServerUrl, selectedTools := [] }],
               newServerUrl := "" }
  else s

/-- Typing `url` into the input box and clicking Add Server. -/
def addMCPServerWith (url : String) (s : State) : State :=
  addMCPServer { s with newServerUrl := url }

/-- LMConfigModal.tsx `removeMCPServer`: drop the server record and its
catalog entry (its selection lives inside the record and goes with it). -/
def removeMCPServer (serverUrl : String) (s : State) : State :=
  { s with localMCPServers := s.localMCPServers.filter (fun srv => srv.url ≠ serverUrl),
           availableTools := objDelete serverUrl s.availableTools }

/-- LMConfigModal.tsx `toggleToolSelection`: flip membership of `toolName` in
the matching server's `selectedTools`; servers with other urls are returned
unchanged (so an unknown url makes the whole map a no-op).  No catalog
check. -/
def toggleToolSelection (serverUrl toolName : String) (s : State) : State :=
  { s with localMCPServers := s.localMCPServers.map fun server =>
      if server.url = serverUrl then
        { server with selectedTools :=
            if toolName ∈ server.selectedTools then
              server.selectedTools.filter (· ≠ toolName)
            else
              server.selectedTools ++ [toolName] }
      else server }

/-- LMConfigModal.tsx `selectAllTools`: set the matching server's selection to
all names of its current catalog. -/
def selectAllTools (serverUrl : String) (s : State) : State :=
  { s with localMCPServers := s.localMCPServers.map fun server =>
      if server.url = serverUrl then
        { server with selectedTools :=
            ((objGet serverUrl s.availableTools).getD []).map (·.name) }
      else server }

/-- LMConfigModal.tsx `deselectAllTools`: set the matching server's selection
to empty. -/
def deselectAllTools (serverUrl : String) (s : State) : State :=
  { s with localMCPServers := s.localMCPServers.map fun server =>
      if server.url = serverUrl then { server with selectedTools := [] }
      else server }

end LMConfigModal

/-- A mutation of the global scope performed through the context, without
re-saving any node. -/
inductive GlobalMutation where
  | setMCP (servers : List MCPServer)
  | setLM (config : Option LMConfig)
deriving DecidableEq

/-- The combined state of the global context and one saved node. -/
structure SystemState where
  ctx : ContextState
  node : ModuleNode.NodeData
deriving DecidableEq

/-- Apply one global-scope mutation; node data lives in the React Flow store
and is only ever written by `handleSave`, so it is untouched. -/
def applyGlobalMutation (m : GlobalMutation) (sys : SystemState) : SystemState :=
  match m with
  | .setMCP servers => { sys with ctx := setMCPServers servers sys.ctx }
  | .setLM config => { sys with ctx := setGlobalLMConfig config sys.ctx }

/-- Apply a sequence of global-scope mutations in order. -/
def applyGlobalMutations (ms : List GlobalMutation) (sys : SystemState) : SystemState :=
  ms.foldl (fun acc m => applyGlobalMutation m acc) sys

/-- One entry of the resolved tool universe handed to execution. -/
structure ResolvedServer where
  url : String
  tools : List String
deriving DecidableEq

/-- Modelled from the spec: `effectiveSelection(url, catalog)` of §4.2 — the
ToolSelectionSet read that intersects a stored selection with the current
catalog's tool names.  The ConfigResolver and this read are not among the
three source files (they belong to the execution subsystem). -/
def effectiveSelection (selection : List String) (catalogNames : List String) :
    List String :=
  selection.filter (· ∈ catalogNames)

/-- Modelled from the spec: `resolve(nodeConfig)` of §4.4 — local servers
first with their effective selections, then, when `useGlobal` is set, the
frozen snapshot verbatim.  The ConfigResolver is not among the three source
files. -/
def resolve (node : ModuleNode.NodeData)
    (catalogs : List (String × List ToolDescriptor)) : List ResolvedServer :=
  (node.mcpServers.map fun url =>
    { url := url,
      tools := effectiveSelection ((objGet url node.selectedTools).getD [])
        (((objGet url catalogs).getD []).map (·.name)) })
  ++ (if node.useGlobalMcpServers then
        node.globalMcpServersSnapshot.map fun srv =>
          { url := srv.url, tools := srv.selectedTools }
      else [])

/-- One user action on the per-node server list. -/
inductive ServerOp where
  | add (url : String)
  | remove (url : String)
deriving DecidableEq

/-- Apply one add/remove action to the ModuleNode state. -/
def applyServerOp (op : ServerOp) (s : ModuleNode.State) : ModuleNode.State :=
  match op with
  | .add url => ModuleNode.addMcpServerWith url s
  | .remove url => ModuleNode.removeMcpServer url s

/-- Apply a sequence of add/remove actions in order. -/
def applyServerOps (ops : List ServerOp) (s : ModuleNode.State) : ModuleNode.State :=
  ops.foldl (fun acc op => applyServerOp op acc) s

/-- The effect of one action on the server list alone. -/
def serverListStep (op : ServerOp) (l : List String) : List String :=
  match op with
  | .add v => if jsTrim v ≠ "" ∧ jsTrim v ∉ l then l ++ [jsTrim v] else l
  | .remove v => l.filter (· ≠ v)

/-- Presence of url `u` in the server list after running `ops` from a list in
which `u`'s presence is `b`: an add whose trimmed argument is `u` (and
non-empty) makes it present, a remove whose exact argument is `u` makes it
absent. -/
def memAfter (u : String) : Bool → List ServerOp → Bool
  | b, [] => b
  | b, .add v :: ops => memAfter u (b || (jsTrim v == u && !(jsTrim v == ""))) ops
  | b, .remove v :: ops => memAfter u (b && !(u == v)) ops

/-! ### Concrete states used by witnesses and counterexamples -/

/-- The global server of the spec's §8 scenario: `http://a` with `search`
selected. -/
def serverA : MCPServer := { url := "http://a", selectedTools := ["search"] }

/-- A global context holding `serverA`. -/
def ctxA : ContextState :=
  { globalLMConfig := none, mcpServers := [serverA], persisted := .absent }

/-- A node draft with the use-global toggle checked. -/
def nodeStateUseGlobal : ModuleNode.State :=
  { ModuleNode.emptyState with useGlobalMcpServers := true }

/-- A node draft that has `http://a` configured with a catalog and a
selection. -/
def nodeStateWithA : ModuleNode.State :=
  { ModuleNode.emptyState with
      mcpServers := ["http://a"],
      availableTools := [("http://a", [{ name := "search", description := "d" }])],
      selectedTools := [("http://a", ["search"])] }

/-- A node draft in which a fetch for `http://a` is in flight. -/
def loadingNodeState : ModuleNode.State :=
  ModuleNode.fetchToolsForServerStart "http://a" ModuleNode.emptyState

/-- A modal draft in which a fetch for `http://a` is in flight. -/
def loadingModalState : LMConfigModal.State :=
  LMConfigModal.fetchToolsForServerStart "http://a" LMConfigModal.emptyState

/-- A modal draft holding one server `http://b` with an empty selection. -/
def modalStateWithB : LMConfigModal.State :=
  { LMConfigModal.emptyState with
      localMCPServers := [{ url := "http://b", selectedTools := [] }] }

/-! ### Helper lemmas -/

theorem objGet_objSet_self {α : Type} (k : String) (v : α) :
    ∀ m : List (String × α), objGet k (objSet k v m) = some v
  | [] => by simp [objGet, objSet]
  | (k', v') :: rest => by
      by_cases h : k' = k
      · simp [objGet, objSet, h]
      · simp [objGet, objSet, h, objGet_objSet_self k v rest]

theorem objGet_objDelete_self {α : Type} (k : String) :
    ∀ m : List (String × α), objGet k (objDelete k m) = none
  | [] => by simp [objGet, objDelete]
  | (k', v') :: rest => by
      by_cases h : k' = k
      · simp [objDelete, h, objGet_objDelete_self k rest]
      · simp [objGet, objDelete, h, objGet_objDelete_self k rest]

theorem objGet_objDelete_ne {α : Type} (k k' : String) (hne : k' ≠ k) :
    ∀ m : List (String × α), objGet k' (objDelete k m) = objGet k' m
  | [] => by simp [objGet, objDelete]
  | (k₀, v₀) :: rest => by
      by_cases h : k₀ = k
      · subst h
        have hk : ¬ (k₀ = k') := fun hh => hne hh.symm
        simp [objGet, objDelete, hk, objGet_objDelete_ne k₀ k' hne rest]
      · by_cases h' : k₀ = k'
        · subst h'
          simp [objGet, objDelete, h]
        · simp [objGet, objDelete, h, h', objGet_objDelete_ne k k' hne rest]

theorem map_mk_eta :
    ∀ l : List MCPServer,
      (l.map fun srv => MCPServer.mk srv.url srv.selectedTools) = l
  | [] => rfl
  | srv :: rest => by simp [map_mk_eta rest]

theorem map_eq_self_of {α : Type} (f : α → α) :
    ∀ l : List α, (∀ a ∈ l, f a = a) → l.map f = l
  | [], _ => rfl
  | a :: rest, h => by
      simp only [List.map_cons, h a (List.mem_cons_self a rest),
        map_eq_self_of f rest fun b hb => h b (List.mem_cons_of_mem a hb)]

theorem map_eq_self_imp {α : Type} (f : α → α) :
    ∀ l : List α, l.map f = l → ∀ a ∈ l, f a = a := by
  intro l
  induction l with
  | nil => intro _ a ha; cases ha
  | cons b rest ih =>
      intro h a ha
      rw [List.map_cons, List.cons.injEq] at h
      rcases List.mem_cons.mp ha with rfl | hmem
      · exact h.1
      · exact ih h.2 a hmem

theorem find?_map_flip (url tool : String) :
    ∀ (l : List MCPServer) (srv : MCPServer),
      l.find? (fun x => x.url == url) = some srv →
      (l.map fun server =>
          if server.url = url then
            { server with selectedTools :=
                if tool ∈ server.selectedTools then
                  server.selectedTools.filter (· ≠ tool)
                else server.selectedTools ++ [tool] }
          else server).find? (fun x => x.url == url)
        = some { srv with selectedTools :=
            if tool ∈ srv.selectedTools then srv.selectedTools.filter (· ≠ tool)
            else srv.selectedTools ++ [tool] } := by
  intro l
  induction l with
  | nil => intro srv h; simp [List.find?] at h
  | cons a rest ih =>
      intro srv h
      by_cases ha : a.url = url
      · rw [List.find?_cons_of_pos rest (by simpa using ha)] at h
        have heq : a = srv := Option.some.inj h
        subst heq
        rw [List.map_cons, if_pos ha]
        exact List.find?_cons_of_pos _ (by simpa using ha)
      · rw [List.find?_cons_of_neg rest (by simpa using ha)] at h
        rw [List.map_cons, if_neg ha]
        rw [List.find?_cons_of_neg _ (by simpa using ha)]
        exact ih srv h

theorem applyGlobalMutation_node (m : GlobalMutation) (sys : SystemState) :
    (applyGlobalMutation m sys).node = sys.node := by
  cases m <;> rfl

theorem applyGlobalMutations_node (ms : List GlobalMutation) (sys : SystemState) :
    (applyGlobalMutations ms sys).node = sys.node := by
  induction ms generalizing sys with
  | nil => rfl
  | cons m ms ih =>
      rw [applyGlobalMutations, List.foldl_cons]
      have step := ih (applyGlobalMutation m sys)
      rw [applyGlobalMutations] at step
      rw [step, applyGlobalMutation_node]

theorem addMcpServerWith_eq (url : String) (s : ModuleNode.State) :
    ModuleNode.addMcpServerWith url s =
      if jsTrim url ≠ "" ∧ jsTrim url ∉ s.mcpServers then
        { s with mcpServers := s.mcpServers ++ [jsTrim url],
                 newMcpServer := "",
                 loadingTools := objSet (jsTrim url) true s.loadingTools,
                 issuedRequests := s.issuedRequests ++ [jsTrim url] }
      else { s with newMcpServer := url } := by
  by_cases h : jsTrim url ≠ "" ∧ jsTrim url ∉ s.mcpServers
  · simp [ModuleNode.addMcpServerWith, ModuleNode.addMcpServer,
      ModuleNode.fetchToolsForServerStart, h]
  · simp [ModuleNode.addMcpServerWith, ModuleNode.addMcpServer,
      ModuleNode.fetchToolsForServerStart, h]

theorem addMCPServerWith_eq (url : String) (s : LMConfigModal.State) :
    LMConfigModal.addMCPServerWith url s =
      if jsTrim url ≠ "" ∧ ∀ srv ∈ s.localMCPServers, srv.url ≠ jsTrim url then
        { s with localMCPServers :=
                   s.localMCPServers ++ [{ url := jsTrim url, selectedTools := [] }],
                 newServerUrl := "",
                 loadingTools := objSet (jsTrim url) true s.loadingTools,
                 issuedRequests := s.issuedRequests ++ [jsTrim url] }
      else { s with newServerUrl := url } := by
  by_cases h : jsTrim url ≠ "" ∧ ∀ srv ∈ s.localMCPServers, srv.url ≠ jsTrim url
  · simp [LMConfigModal.addMCPServerWith, LMConfigModal.addMCPServer,
      LMConfigModal.fetchToolsForServerStart, h]
  · simp [LMConfigModal.addMCPServerWith, LMConfigModal.addMCPServer,
      LMConfigModal.fetchToolsForServerStart, h]

theorem applyServerOp_mcpServers (op : ServerOp) (s : ModuleNode.State) :
    (applyServerOp op s).mcpServers = serverListStep op s.mcpServers := by
  cases op with
  | add url =>
      rw [applyServerOp, addMcpServerWith_eq, serverListStep]
      by_cases h : jsTrim url ≠ "" ∧ jsTrim url ∉ s.mcpServers
      · rw [if_pos h, if_pos h]
      · rw [if_neg h, if_neg h]
  | remove url => rfl

theorem applyServerOps_mcpServers (ops : List ServerOp) (s : ModuleNode.State) :
    (applyServerOps ops s).mcpServers
      = ops.foldl (fun l op => serverListStep op l) s.mcpServers := by
  induction ops generalizing s with
  | nil => rfl
  | cons op ops ih =>
      rw [applyServerOps, List.foldl_cons, List.foldl_cons]
      have step := ih (applyServerOp op s)
      rw [applyServerOps] at step
      rw [step, applyServerOp_mcpServers]

theorem mem_serverListStep_add (u v : String) (l : List String) :
    decide (u ∈ serverListStep (ServerOp.add v) l)
      = (decide (u ∈ l) || (jsTrim v == u && !(jsTrim v == ""))) := by
  rw [Bool.eq_iff_iff]
  simp only [decide_eq_true_eq, Bool.or_eq_true, Bool.and_eq_true,
    Bool.not_eq_true', beq_iff_eq, beq_eq_false_iff_ne, ne_eq, serverListStep]
  by_cases h : jsTrim v ≠ "" ∧ jsTrim v ∉ l
  · rw [if_pos (by simpa using h)]
    simp only [List.mem_append, List.mem_singleton]
    constructor
    · rintro (hu | hu)
      · exact Or.inl hu
      · exact Or.inr ⟨hu.symm, h.1⟩
    · rintro (hu | ⟨he, _⟩)
      · exact Or.inl hu
      · exact Or.inr he.symm
  · rw [if_neg (by simpa using h)]
    constructor
    · exact Or.inl
    · rintro (hu | ⟨he, hne⟩)
      · exact hu
      · have hin : jsTrim v ∈ l := by
          by_contra hmem
          exact h ⟨hne, hmem⟩
        rwa [he] at hin

theorem mem_serverListStep_remove (u v : String) (l : List String) :
    decide (u ∈ serverListStep (ServerOp.remove v) l)
      = (decide (u ∈ l) && !(u == v)) := by
  rw [Bool.eq_iff_iff]
  simp [serverListStep, List.mem_filter]

theorem mem_foldl_serverListStep (u : String) (ops : List ServerOp) :
    ∀ l : List String,
      (u ∈ ops.foldl (fun l op => serverListStep op l) l)
        ↔ memAfter u (decide (u ∈ l)) ops = true := by
  induction ops with
  | nil => intro l; simp [memAfter]
  | cons op ops ih =>
      intro l
      rw [List.foldl_cons]
      cases op with
      | add v =>
          rw [show memAfter u (decide (u ∈ l)) (ServerOp.add v :: ops)
                = memAfter u (decide (u ∈ l) || (jsTrim v == u && !(jsTrim v == ""))) ops
              from rfl]
          rw [← mem_serverListStep_add u v l]
          exact ih (serverListStep (ServerOp.add v) l)
      | remove v =>
          rw [show memAfter u (decide (u ∈ l)) (ServerOp.remove v :: ops)
                = memAfter u (decide (u ∈ l) && !(u == v)) ops
              from rfl]
          rw [← mem_serverListStep_remove u v l]
          exact ih (serverListStep (ServerOp.remove v) l)

theorem nodup_serverListStep (op : ServerOp) (l : List String) (h : l.Nodup) :
    (serverListStep op l).Nodup := by
  cases op with
  | add v =>
      rw [serverListStep]
      by_cases hc : jsTrim v ≠ "" ∧ jsTrim v ∉ l
      · rw [if_pos hc]
        simp [List.nodup_append, h, hc.2]
      · rw [if_neg hc]
        exact h
  | remove v => exact h.filter _

theorem nodup_foldl_serverListStep (ops : List ServerOp) :
    ∀ l : List String, l.Nodup →
      (ops.foldl (fun l op => serverListStep op l) l).Nodup := by
  induction ops with
  | nil => intro l h; exact h
  | cons op ops ih =>
      intro l h
      rw [List.foldl_cons]
      exact ih (serverListStep op l) (nodup_serverListStep op l h)

theorem addMcpServerWith_twice (url : String) (s : ModuleNode.State) :
    ModuleNode.addMcpServerWith url (ModuleNode.addMcpServerWith url s)
      = { ModuleNode.addMcpServerWith url s with newMcpServer := url } := by
  by_cases h : jsTrim url ≠ "" ∧ jsTrim url ∉ s.mcpServers
  · have h2 : ¬ (jsTrim url ≠ "" ∧
        jsTrim url ∉ (ModuleNode.addMcpServerWith url s).mcpServers) := by
      rw [addMcpServerWith_eq, if_pos h]
      intro hc
      exact hc.2 (by simp)
    rw [addMcpServerWith_eq url (ModuleNode.addMcpServerWith url s), if_neg h2]
  · have h2 : ¬ (jsTrim url ≠ "" ∧
        jsTrim url ∉ (ModuleNode.addMcpServerWith url s).mcpServers) := by
      rw [addMcpServerWith_eq, if_neg h]
      exact h
    rw [addMcpServerWith_eq url (ModuleNode.addMcpServerWith url s), if_neg h2]

theorem addMCPServerWith_twice (url : String) (s : LMConfigModal.State) :
    LMConfigModal.addMCPServerWith url (LMConfigModal.addMCPServerWith url s)
      = { LMConfigModal.addMCPServerWith url s with newServerUrl := url } := by
  by_cases h : jsTrim url ≠ "" ∧ ∀ srv ∈ s.localMCPServers, srv.url ≠ jsTrim url
  · have h2 : ¬ (jsTrim url ≠ "" ∧
        ∀ srv ∈ (LMConfigModal.addMCPServerWith url s).localMCPServers,
          srv.url ≠ jsTrim url) := by
      rw [addMCPServerWith_eq, if_pos h]
      intro hc
      have hmem : ({ url := jsTrim url, selectedTools := [] } : MCPServer)
          ∈ s.localMCPServers ++ [{ url := jsTrim url, selectedTools := [] }] := by
        simp
      exact hc.2 _ hmem rfl
    rw [addMCPServerWith_eq url (LMConfigModal.addMCPServerWith url s), if_neg h2]
  · have h2 : ¬ (jsTrim url ≠ "" ∧
        ∀ srv ∈ (LMConfigModal.addMCPServerWith url s).localMCPServers,
          srv.url ≠ jsTrim url) := by
      rw [addMCPServerWith_eq, if_neg h]
      exact h
    rw [addMCPServerWith_eq url (LMConfigModal.addMCPServerWith url s), if_neg h2]

/-! ### Claim theorems -/

/-- C1: Snapshot freezing — saving a node while `useGlobalMcpServers` is true
stores in `globalMcpServersSnapshot` a value copy (url and selectedTools of
each entry) of the global server list at the moment of save, and no subsequent
sequence of `setMCPServers` / `setGlobalLMConfig` mutations of the global
scope changes the saved node's data or the tool list resolved from it. -/
theorem c1_snapshot_freezing (lbl : String) (s : ModuleNode.State)
    (ctx : ContextState) (muts : List GlobalMutation)
    (catalogs : List (String × List ToolDescriptor))
    (h : s.useGlobalMcpServers = true) :
    (ModuleNode.handleSave lbl s ctx.mcpServers).globalMcpServersSnapshot
        = ctx.mcpServers
    ∧ (applyGlobalMutations muts
          ⟨ctx, ModuleNode.handleSave lbl s ctx.mcpServers⟩).node
        = ModuleNode.handleSave lbl s ctx.mcpServers
    ∧ resolve (applyGlobalMutations muts
          ⟨ctx, ModuleNode.handleSave lbl s ctx.mcpServers⟩).node catalogs
        = resolve (ModuleNode.handleSave lbl s ctx.mcpServers) catalogs := by
  refine ⟨?_, applyGlobalMutations_node muts _, ?_⟩
  · show (if s.useGlobalMcpServers then _ else []) = ctx.mcpServers
    rw [if_pos h, map_mk_eta]
  · rw [applyGlobalMutations_node]

/-- Witness for C1, following the spec's §8 scenario: the global scope holds
`http://a` with `search` selected, node N is saved with the toggle on, the
global selection is then replaced by `fetch` without re-saving N, and N's
snapshot and resolved tool list still show `search`. -/
theorem c1_snapshot_freezing_witness :
    ((ModuleNode.handleSave "N" nodeStateUseGlobal ctxA.mcpServers).globalMcpServersSnapshot
        = ctxA.mcpServers
      ∧ (applyGlobalMutations [GlobalMutation.setMCP [{ url := "http://a", selectedTools := ["fetch"] }]]
            ⟨ctxA, ModuleNode.handleSave "N" nodeStateUseGlobal ctxA.mcpServers⟩).node
          = ModuleNode.handleSave "N" nodeStateUseGlobal ctxA.mcpServers
      ∧ resolve (applyGlobalMutations [GlobalMutation.setMCP [{ url := "http://a", selectedTools := ["fetch"] }]]
            ⟨ctxA, ModuleNode.handleSave "N" nodeStateUseGlobal ctxA.mcpServers⟩).node []
          = resolve (ModuleNode.handleSave "N" nodeStateUseGlobal ctxA.mcpServers) [])
    ∧ resolve (applyGlobalMutations [GlobalMutation.setMCP [{ url := "http://a", selectedTools := ["fetch"] }]]
          ⟨ctxA, ModuleNode.handleSave "N" nodeStateUseGlobal ctxA.mcpServers⟩).node []
        = [{ url := "http://a", tools := ["search"] }] :=
  ⟨c1_snapshot_freezing "N" nodeStateUseGlobal ctxA
      [GlobalMutation.setMCP [{ url := "http://a", selectedTools := ["fetch"] }]] [] rfl,
    by decide⟩

/-- C2: a save performed while `useGlobalMcpServers` is false always stores an
empty `globalMcpServersSnapshot`, so a saved snapshot is non-empty only if the
save happened while the toggle was true. -/
theorem c2_snapshot_cleared_without_useGlobal (lbl : String)
    (s : ModuleNode.State) (g : List MCPServer) :
    ((ModuleNode.handleSave lbl s g).globalMcpServersSnapshot ≠ [] →
        s.useGlobalMcpServers = true)
    ∧ (s.useGlobalMcpServers = false →
        (ModuleNode.handleSave lbl s g).globalMcpServersSnapshot = []) := by
  constructor
  · intro hne
    cases hb : s.useGlobalMcpServers with
    | true => rfl
    | false =>
        exfalso
        apply hne
        show (if s.useGlobalMcpServers then _ else []) = []
        rw [if_neg (by rw [hb]; exact Bool.false_ne_true)]
  · intro hfalse
    show (if s.useGlobalMcpServers then _ else []) = []
    rw [if_neg (by rw [hfalse]; exact Bool.false_ne_true)]

/-- Witness for C2: saving the default draft (toggle off) over a non-empty
global scope clears the snapshot. -/
theorem c2_snapshot_cleared_without_useGlobal_witness :
    (ModuleNode.handleSave "N" ModuleNode.emptyState [serverA]).globalMcpServersSnapshot
      = [] :=
  (c2_snapshot_cleared_without_useGlobal "N" ModuleNode.emptyState [serverA]).2 rfl

/-- C8: loading the global scope never fails the caller — an absent blob, a
malformed (unparsable) blob, and a parsed blob with both fields missing all
yield the empty defaults (no lmConfig, empty server list), and any parsed blob
loads with each missing field defaulted. -/
theorem c8_load_never_fails :
    loadGlobalConfig PersistedValue.absent = defaultGlobalConfig
    ∧ loadGlobalConfig PersistedValue.malformed = defaultGlobalConfig
    ∧ loadGlobalConfig (PersistedValue.parsed none none) = defaultGlobalConfig
    ∧ ∀ (lm : Option LMConfig) (srv : Option (List MCPServer)),
        loadGlobalConfig (PersistedValue.parsed lm srv)
          = { lmConfig := lm, mcpServers := srv.getD [] } :=
  ⟨rfl, rfl, rfl, fun _ _ => rfl⟩

/-- C9: round-trip — persisting a global config (lmConfig and mcpServers) and
loading it back yields an equal config, both for a direct save and through the
two context setters. -/
theorem c9_save_load_round_trip (c : GlobalConfig) (s : ContextState) :
    loadGlobalConfig (saveGlobalConfig c.lmConfig c.mcpServers) = c
    ∧ loadGlobalConfig
        (setMCPServers c.mcpServers (setGlobalLMConfig c.lmConfig s)).persisted = c := by
  cases c
  exact ⟨rfl, rfl⟩

/-- C10: frame property of the persisted blob — `setGlobalLMConfig` writes a
blob whose mcpServers half is the current in-memory server list unchanged, and
`setMCPServers` writes a blob whose lmConfig half is the current in-memory LM
config unchanged; neither setter touches the other half of the in-memory
state. -/
theorem c10_setter_frame (s : ContextState) (c : Option LMConfig)
    (servers : List MCPServer) :
    (setGlobalLMConfig c s).persisted = PersistedValue.parsed c (some s.mcpServers)
    ∧ (setGlobalLMConfig c s).mcpServers = s.mcpServers
    ∧ (setMCPServers servers s).persisted
        = PersistedValue.parsed s.globalLMConfig (some servers)
    ∧ (setMCPServers servers s).globalLMConfig = s.globalLMConfig :=
  ⟨rfl, rfl, rfl, rfl⟩

/-- C3 counterexample: the duplicate check is not an exact string match with no
normalization — the candidate url is trimmed first.  After adding
`"http://a"`, calling add with the different string `" http://a"` is rejected
as a duplicate: the server list stays `["http://a"]` and the textually
distinct url `" http://a"` is not appended. -/
theorem c3_counterexample :
    (ModuleNode.addMcpServerWith " http://a"
        (ModuleNode.addMcpServerWith "http://a" ModuleNode.emptyState)).mcpServers
      = ["http://a"]
    ∧ " http://a" ∉ (ModuleNode.addMcpServerWith " http://a"
        (ModuleNode.addMcpServerWith "http://a" ModuleNode.emptyState)).mcpServers := by
  decide

/-- C3 amended: calling add twice with the same url and no intervening remove
silently rejects the second call, leaving the server list, the catalogs, the
selections, the loading flags and the issued requests exactly as after the
first call, in both the per-node scope and the global modal; the duplicate
check compares the trimmed candidate url for exact string equality against the
stored urls (trimming of the candidate is the only normalization, and no error
value is produced — rejection is a silent no-op). -/
theorem c3_duplicate_add_rejected (url : String) (s : ModuleNode.State)
    (t : LMConfigModal.State) :
    ((ModuleNode.addMcpServerWith url (ModuleNode.addMcpServerWith url s)).mcpServers
        = (ModuleNode.addMcpServerWith url s).mcpServers
      ∧ (ModuleNode.addMcpServerWith url (ModuleNode.addMcpServerWith url s)).availableTools
          = (ModuleNode.addMcpServerWith url s).availableTools
      ∧ (ModuleNode.addMcpServerWith url (ModuleNode.addMcpServerWith url s)).selectedTools
          = (ModuleNode.addMcpServerWith url s).selectedTools
      ∧ (ModuleNode.addMcpServerWith url (ModuleNode.addMcpServerWith url s)).loadingTools
          = (ModuleNode.addMcpServerWith url s).loadingTools
      ∧ (ModuleNode.addMcpServerWith url (ModuleNode.addMcpServerWith url s)).issuedRequests
          = (ModuleNode.addMcpServerWith url s).issuedRequests)
    ∧ ((LMConfigModal.addMCPServerWith url (LMConfigModal.addMCPServerWith url t)).localMCPServers
        = (LMConfigModal.addMCPServerWith url t).localMCPServers
      ∧ (LMConfigModal.addMCPServerWith url (LMConfigModal.addMCPServerWith url t)).availableTools
          = (LMConfigModal.addMCPServerWith url t).availableTools
      ∧ (LMConfigModal.addMCPServerWith url (LMConfigModal.addMCPServerWith url t)).loadingTools
          = (LMConfigModal.addMCPServerWith url t).loadingTools
      ∧ (LMConfigModal.addMCPServerWith url (LMConfigModal.addMCPServerWith url t)).issuedRequests
          = (LMConfigModal.addMCPServerWith url t).issuedRequests) := by
  rw [addMcpServerWith_twice, addMCPServerWith_twice]
  exact ⟨⟨rfl, rfl, rfl, rfl, rfl⟩, ⟨rfl, rfl, rfl, rfl⟩⟩

/-- C4 counterexample: the claim's characterization fails because adds store
the trimmed url while removes match the raw string exactly.  Adding
`" http://a"` and then removing the very same string leaves the server list
non-empty — the add stored `"http://a"`, which the remove did not match — even
though every added url was subsequently removed. -/
theorem c4_counterexample :
    (applyServerOps [ServerOp.add " http://a", ServerOp.remove " http://a"]
        ModuleNode.emptyState).mcpServers = ["http://a"] := by
  decide

/-- C4 amended: for every sequence of add/remove calls from the empty scope, a
url is in the final server list exactly when its presence bit computed by
`memAfter` is true — i.e. it was stored by an add whose trimmed argument
equals it (and is non-empty) and no later remove named it exactly; the final
list never contains duplicates; removing an absent url leaves the server list
unchanged; and a remove always deletes the removed url's catalog and selection
entries. -/
theorem c4_registry_characterization (ops : List ServerOp) (u : String) :
    ((u ∈ (applyServerOps ops ModuleNode.emptyState).mcpServers)
        ↔ memAfter u false ops = true)
    ∧ (applyServerOps ops ModuleNode.emptyState).mcpServers.Nodup
    ∧ (∀ s : ModuleNode.State, u ∉ s.mcpServers →
        (ModuleNode.removeMcpServer u s).mcpServers = s.mcpServers)
    ∧ (∀ s : ModuleNode.State,
        objGet u (ModuleNode.removeMcpServer u s).availableTools = none
        ∧ objGet u (ModuleNode.removeMcpServer u s).selectedTools = none) := by
  refine ⟨?_, ?_, ?_, ?_⟩
  · rw [applyServerOps_mcpServers]
    have hchar := mem_foldl_serverListStep u ops ([] : List String)
    simpa using hchar
  · rw [applyServerOps_mcpServers]
    exact nodup_foldl_serverListStep ops [] List.nodup_nil
  · intro s hu
    show s.mcpServers.filter (· ≠ u) = s.mcpServers
    rw [List.filter_eq_self]
    intro a ha
    exact decide_eq_true fun he => hu (he ▸ ha)
  · intro s
    exact ⟨objGet_objDelete_self u _, objGet_objDelete_self u _⟩

/-- Witness for C4: one add makes the url present; removing an unknown url is
a no-op on the server list; removing a present url deletes its catalog
entry. -/
theorem c4_registry_characterization_witness :
    ("http://a" ∈ (applyServerOps [ServerOp.add "http://a"]
        ModuleNode.emptyState).mcpServers)
    ∧ (ModuleNode.removeMcpServer "http://b" nodeStateWithA).mcpServers
        = nodeStateWithA.mcpServers
    ∧ objGet "http://a"
        (ModuleNode.removeMcpServer "http://a" nodeStateWithA).availableTools = none :=
  ⟨((c4_registry_characterization [ServerOp.add "http://a"] "http://a").1).mpr
      (by decide),
    (c4_registry_characterization [] "http://b").2.2.1 nodeStateWithA (by decide),
    ((c4_registry_characterization [] "http://a").2.2.2 nodeStateWithA).1⟩

/-- C5 counterexample: there is no coalescing of catalog fetches.  After one
`fetchToolsForServer("http://a")` has started (its loading flag is true and
one request is in flight), starting another fetch for the same url issues a
second network request, so two requests for `http://a` are in flight with no
completion in between. -/
theorem c5_counterexample :
    objGet "http://a" (ModuleNode.fetchToolsForServerStart "http://a"
        ModuleNode.emptyState).loadingTools = some true
    ∧ (ModuleNode.fetchToolsForServerStart "http://a"
        (ModuleNode.fetchToolsForServerStart "http://a"
          ModuleNode.emptyState)).issuedRequests
      = ["http://a", "http://a"] := by
  decide

/-- C5 amended: `fetchToolsForServer` never coalesces — every invocation, in
both the per-node scope and the global modal, unconditionally issues one more
network request for its url and sets the loading flag, even when the url's
fetch state is already Loading. -/
theorem c5_fetch_not_coalesced (url : String) (s : ModuleNode.State)
    (t : LMConfigModal.State)
    (_hs : objGet url s.loadingTools = some true)
    (_ht : objGet url t.loadingTools = some true) :
    ((ModuleNode.fetchToolsForServerStart url s).issuedRequests
        = s.issuedRequests ++ [url]
      ∧ objGet url (ModuleNode.fetchToolsForServerStart url s).loadingTools
          = some true)
    ∧ ((LMConfigModal.fetchToolsForServerStart url t).issuedRequests
        = t.issuedRequests ++ [url]
      ∧ objGet url (LMConfigModal.fetchToolsForServerStart url t).loadingTools
          = some true) :=
  ⟨⟨rfl, objGet_objSet_self url true s.loadingTools⟩,
    ⟨rfl, objGet_objSet_self url true t.loadingTools⟩⟩

/-- Witness for C5's amended theorem: a second fetch started while `http://a`
is already Loading still appends a request in both scopes. -/
theorem c5_fetch_not_coalesced_witness :
    ((ModuleNode.fetchToolsForServerStart "http://a" loadingNodeState).issuedRequests
        = loadingNodeState.issuedRequests ++ ["http://a"]
      ∧ objGet "http://a" (ModuleNode.fetchToolsForServerStart "http://a"
          loadingNodeState).loadingTools = some true)
    ∧ ((LMConfigModal.fetchToolsForServerStart "http://a" loadingModalState).issuedRequests
        = loadingModalState.issuedRequests ++ ["http://a"]
      ∧ objGet "http://a" (LMConfigModal.fetchToolsForServerStart "http://a"
          loadingModalState).loadingTools = some true) :=
  c5_fetch_not_coalesced "http://a" loadingNodeState loadingModalState
    (by decide) (by decide)

/-- C6: seeding defaults differ by scope — in the global modal a newly added
server starts with an empty selection and a successful catalog fetch leaves
every selection untouched, while in the per-node scope a successful catalog
fetch for a server with no existing selection entry seeds the selection with
all tool names of the fetched catalog. -/
theorem c6_seeding_defaults (url : String) (tools : List ToolDescriptor)
    (t : LMConfigModal.State) (s : ModuleNode.State)
    (htrim : jsTrim url = url) (hne : url ≠ "")
    (hfresh : ∀ srv ∈ t.localMCPServers, srv.url ≠ url)
    (_hnosel : objGet url s.selectedTools = none) :
    (LMConfigModal.addMCPServerWith url t).localMCPServers
        = t.localMCPServers ++ [{ url := url, selectedTools := [] }]
    ∧ (∀ (u : String) (ts : List ToolDescriptor) (t' : LMConfigModal.State),
        (LMConfigModal.fetchToolsForServerSuccess u ts t').localMCPServers
          = t'.localMCPServers)
    ∧ objGet url (ModuleNode.fetchToolsForServerSuccess url tools s).selectedTools
        = some (tools.map (·.name)) := by
  refine ⟨?_, fun _ _ _ => rfl, ?_⟩
  · have hcond : jsTrim url ≠ "" ∧ ∀ srv ∈ t.localMCPServers, srv.url ≠ jsTrim url := by
      rw [htrim]
      exact ⟨hne, hfresh⟩
    rw [addMCPServerWith_eq, if_pos hcond, htrim]
  · show objGet url (objSet url (tools.map (·.name)) s.selectedTools) = _
    exact objGet_objSet_self url _ s.selectedTools

/-- Witness for C6: adding `http://a` to the empty modal seeds `[]`, and a
successful node-scope fetch of one tool seeds that tool's name. -/
theorem c6_seeding_defaults_witness :
    (LMConfigModal.addMCPServerWith "http://a" LMConfigModal.emptyState).localMCPServers
        = LMConfigModal.emptyState.localMCPServers
            ++ [{ url := "http://a", selectedTools := [] }]
    ∧ (∀ (u : String) (ts : List ToolDescriptor) (t' : LMConfigModal.State),
        (LMConfigModal.fetchToolsForServerSuccess u ts t').localMCPServers
          = t'.localMCPServers)
    ∧ objGet "http://a" (ModuleNode.fetchToolsForServerSuccess "http://a"
        [{ name := "search", description := "d" }]
        ModuleNode.emptyState).selectedTools
      = some (([{ name := "search", description := "d" }] :
          List ToolDescriptor).map (·.name)) :=
  c6_seeding_defaults "http://a" [{ name := "search", description := "d" }]
    LMConfigModal.emptyState ModuleNode.emptyState
    (by decide) (by decide) (by decide) (by decide)

/-- C7 counterexample: in the per-node scope, toggling a tool for a url that
has no catalog yet is not a no-op — with no catalog and no selection entry for
`http://c`, toggling `x` creates the selection entry `["x"]`. -/
theorem c7_counterexample :
    objGet "http://c" ModuleNode.emptyState.availableTools = none
    ∧ objGet "http://c" (ModuleNode.toggleToolSelection "http://c" "x"
        ModuleNode.emptyState).selectedTools = some ["x"] := by
  decide

/-- C7 amended: `toggle(url, toolName)` flips the membership of `toolName` in
the selection for `url` unconditionally, with a missing selection entry
treated as empty, and there is no catalog check in either scope — in the
per-node scope the entry is flipped whatever `availableTools` holds, in the
global modal the configured server found for `url` has its selection flipped
the same way, and both toggles are invariant under replacing `availableTools`
by anything; the only silent no-op is in the global modal, exactly when `url`
matches none of the configured servers. -/
theorem c7_toggle_flips_membership (url tool : String) (s : ModuleNode.State)
    (t : LMConfigModal.State) :
    (objGet url (ModuleNode.toggleToolSelection url tool s).selectedTools
      = some (if tool ∈ (objGet url s.selectedTools).getD [] then
                ((objGet url s.selectedTools).getD []).filter (· ≠ tool)
              else (objGet url s.selectedTools).getD [] ++ [tool]))
    ∧ (∀ cat, (ModuleNode.toggleToolSelection url tool
          { s with availableTools := cat }).selectedTools
        = (ModuleNode.toggleToolSelection url tool s).selectedTools)
    ∧ (∀ srv : MCPServer,
        t.localMCPServers.find? (fun x => x.url == url) = some srv →
        (LMConfigModal.toggleToolSelection url tool t).localMCPServers.find?
            (fun x => x.url == url)
          = some { srv with selectedTools :=
              if tool ∈ srv.selectedTools then srv.selectedTools.filter (· ≠ tool)
              else srv.selectedTools ++ [tool] })
    ∧ (∀ cat, (LMConfigModal.toggleToolSelection url tool
          { t with availableTools := cat }).localMCPServers
        = (LMConfigModal.toggleToolSelection url tool t).localMCPServers)
    ∧ ((LMConfigModal.toggleToolSelection url tool t).localMCPServers
          = t.localMCPServers
        ↔ ∀ x ∈ t.localMCPServers, x.url ≠ url) := by
  refine ⟨?_, fun cat => rfl, ?_, fun cat => rfl, ?_, ?_⟩
  · show objGet url (objSet url _ s.selectedTools) = _
    exact objGet_objSet_self url _ s.selectedTools
  · intro srv hfind
    exact find?_map_flip url tool t.localMCPServers srv hfind
  · intro hnoop x hx
    have hfx := map_eq_self_imp
      (fun server : MCPServer =>
        if server.url = url then
          { server with selectedTools :=
              if tool ∈ server.selectedTools then
                server.selectedTools.filter (· ≠ tool)
              else server.selectedTools ++ [tool] }
        else server)
      t.localMCPServers hnoop x hx
    intro hxu
    dsimp only at hfx
    rw [if_pos hxu] at hfx
    have hsel : (if tool ∈ x.selectedTools then
          x.selectedTools.filter (· ≠ tool)
        else x.selectedTools ++ [tool]) = x.selectedTools :=
      congrArg MCPServer.selectedTools hfx
    by_cases hm : tool ∈ x.selectedTools
    · rw [if_pos hm] at hsel
      have hmem : tool ∈ x.selectedTools.filter (· ≠ tool) := by
        rw [hsel]; exact hm
      have hne := (List.mem_filter.mp hmem).2
      simp at hne
    · rw [if_neg hm] at hsel
      apply hm
      rw [← hsel]
      simp
  · intro hnone
    show t.localMCPServers.map _ = t.localMCPServers
    apply map_eq_self_of
    intro srv hsrv
    rw [if_neg (hnone srv hsrv)]

/-- Witness for C7's amended theorem: toggling `x` for `http://b` — a url with
no catalog anywhere — creates the node-scope selection `["x"]`, flips the
configured modal server `http://b` from `[]` to `["x"]`, and the modal no-op
criterion (some configured server has the url, so not a no-op) evaluates at
the same state. -/
theorem c7_toggle_flips_membership_witness :
    objGet "http://b" (ModuleNode.toggleToolSelection "http://b" "x"
        nodeStateWithA).selectedTools = some ["x"]
    ∧ (LMConfigModal.toggleToolSelection "http://b" "x"
        modalStateWithB).localMCPServers.find? (fun srv => srv.url == "http://b")
      = some { url := "http://b", selectedTools := ["x"] }
    ∧ ((LMConfigModal.toggleToolSelection "http://b" "x"
          modalStateWithB).localMCPServers = modalStateWithB.localMCPServers
        ↔ ∀ srv ∈ modalStateWithB.localMCPServers, srv.url ≠ "http://b") :=
  ⟨(c7_toggle_flips_membership "http://b" "x" nodeStateWithA modalStateWithB).1,
    (c7_toggle_flips_membership "http://b" "x" nodeStateWithA
        modalStateWithB).2.2.1 { url := "http://b", selectedTools := [] } (by decide),
    (c7_toggle_flips_membership "http://b" "x" nodeStateWithA
        modalStateWithB).2.2.2.2⟩

end DspyForge
